import Mathlib

/-!  Formal model of the Metro Manila traffic dashboard data pipeline
(`Fernandez_MP3.py`): multi-file CSV ingestion and cleaning
(`load_and_clean_data`), the sidebar date/city filter (`mask`,
`filtered_df`), and the aggregate views (top metrics, geo points,
monthly trend, hour-by-day matrix, vehicle ranking).  -/

namespace Traffic

/-- Calendar date; the value held by a cell of the `Date` column after
`pd.to_datetime(df['Date'], errors='coerce')` (the text cell is abstracted
by its parse result, `none` standing for NaT). -/
structure DateV where
  year : Nat
  month : Nat
  day : Nat
deriving DecidableEq

/-- Dates representable by pandas nanosecond timestamps, the codomain of
`pd.to_datetime(..., errors='coerce')`: years 1678-2261 and in-range
month/day fields. -/
def ValidDate (d : DateV) : Prop :=
  1678 ≤ d.year ∧ d.year ≤ 2261 ∧ 1 ≤ d.month ∧ d.month ≤ 12 ∧ 1 ≤ d.day ∧ d.day ≤ 31

instance (d : DateV) : Decidable (ValidDate d) := by
  unfold ValidDate; infer_instance

/-- Comparison of python `datetime.date` values, as in
`df['Date'].dt.date >= start_date`. -/
def dateLe (a b : DateV) : Bool :=
  if a.year < b.year then true
  else if b.year < a.year then false
  else if a.month < b.month then true
  else if b.month < a.month then false
  else a.day ≤ b.day

/-- Wall-clock time: the value held by a cell of the `Time` column after
`pd.to_datetime(df['Time'], format='%I:%M %p', errors='coerce').dt.time`. -/
structure Tod where
  hour : Nat
  minute : Nat
deriving DecidableEq

/-- Value of a decimal digit character, `none` on any other character. -/
def digitVal (c : Char) : Option Nat :=
  if c.isDigit then some (c.toNat - 48) else none

/-- Parse one or two leading decimal digits (strptime `%I`/`%M`/`%H` accept
either), returning the value and the remaining characters. -/
def parseNat2 : List Char → Option (Nat × List Char)
  | [] => none
  | [c] => (digitVal c).map (fun a => (a, ([] : List Char)))
  | c1 :: c2 :: rest =>
    match digitVal c1, digitVal c2 with
    | some a, some b => some (10 * a + b, rest)
    | some a, none => some (a, c2 :: rest)
    | none, _ => none

/-- strptime `%p` field; `true` means PM. -/
def parseAmPm : List Char → Option Bool
  | ['A', 'M'] => some false
  | ['P', 'M'] => some true
  | ['a', 'm'] => some false
  | ['p', 'm'] => some true
  | _ => none

/-- strptime with format `%I:%M %p` (12-hour clock) as applied to the `Time`
column; `errors='coerce'` is modelled by the `Option`. -/
def parse12 (cs : List Char) : Option Tod :=
  match parseNat2 cs with
  | none => none
  | some (h12, rest) =>
    match rest with
    | ':' :: rest2 =>
      match parseNat2 rest2 with
      | none => none
      | some (mm, rest3) =>
        match rest3 with
        | ' ' :: rest4 =>
          match parseAmPm rest4 with
          | none => none
          | some pm =>
            if 1 ≤ h12 && h12 ≤ 12 && mm ≤ 59 then
              some ⟨h12 % 12 + (if pm then 12 else 0), mm⟩
            else none
        | _ => none
    | _ => none

/-- Fixed-width decimal print of the least significant `w` digits of `n`. -/
def fmtW : Nat → Nat → List Char
  | 0, _ => []
  | w + 1, n => fmtW w (n / 10) ++ [Nat.digitChar (n % 10)]

/-- Text of a `datetime.time` value as produced by `astype(str)`:
zero-padded `HH:MM:SS`. -/
def formatTod (t : Tod) : List Char :=
  fmtW 2 t.hour ++ ':' :: (fmtW 2 t.minute ++ [':', '0', '0'])

/-- Text of a cell of the `Time` column under `astype(str)`; a missing value
(NaT) prints as `NaT`. -/
def timeText : Option Tod → List Char
  | none => ['N', 'a', 'T']
  | some t => formatTod t

/-- Behaviour of `pd.to_datetime(..., errors='coerce').dt.hour` on the texts
produced by `timeText`: a zero-padded `HH:MM:SS` clock time yields its hour
field; anything else (in particular `NaT`) coerces to NaT, i.e. `none`. -/
def reparseHour : List Char → Option Nat
  | [h1, h2, c1, m1, m2, c2, s1, s2] =>
    if c1 = ':' && c2 = ':' then
      match digitVal h1, digitVal h2, digitVal m1, digitVal m2,
          digitVal s1, digitVal s2 with
      | some a, some b, some c, some d, some e, some f =>
        if 10 * a + b < 24 && 10 * c + d < 60 && 10 * e + f < 60 then
          some (10 * a + b)
        else none
      | _, _, _, _, _, _ => none
    else none
  | _ => none

/-- Two-step hour derivation of the source, line 66:
`df['Hour'] = pd.to_datetime(df['Time'].astype(str), errors='coerce').dt.hour`. -/
def hourFromTime (o : Option Tod) : Option Nat :=
  reparseHour (timeText o)

/-- Month bucket `df['Date'].dt.to_period('M').astype(str)`: `YYYY-MM`.  In
the representable year range 1678-2261 the year always prints as exactly
four digits, so the fixed-width print coincides with the source's output. -/
def monthYearOf (d : DateV) : List Char :=
  fmtW 4 d.year ++ '-' :: fmtW 2 d.month

/-- python `str.title()`: first letter of each alphabetic run uppercased,
subsequent letters lowercased. -/
def titleCaseAux : Bool → List Char → List Char
  | _, [] => []
  | prevAlpha, c :: cs =>
    (if c.isAlpha then (if prevAlpha then c.toLower else c.toUpper) else c)
      :: titleCaseAux c.isAlpha cs

/-- `Series.str.title()`. -/
def strTitle (s : String) : String :=
  ⟨titleCaseAux false s.data⟩

/-- `Series.str.strip()`: whitespace removed from both ends. -/
def strStrip (s : String) : String :=
  ⟨((s.data.dropWhile Char.isWhitespace).reverse.dropWhile Char.isWhitespace).reverse⟩

/-- City cleaning, line 58:
`df['City'].fillna('Unknown').astype(str).str.title().str.strip()`. -/
def normCity (o : Option String) : String :=
  strStrip (strTitle (o.getD "Unknown"))

/-- Row of one raw CSV file as parsed by `pd.read_csv`; `none` is a missing
value (NaN).  `date` abstracts the `Date` text cell by its
`pd.to_datetime(errors='coerce')` parse; `time` holds the raw text of the
`Time` cell; `itype` is the `Type` column. -/
structure RawRow where
  city : Option String := none
  date : Option DateV := none
  time : Option (List Char) := none
  involved : Option String := none
  itype : Option String := none
  lat : Option ℚ := none
  lon : Option ℚ := none
deriving DecidableEq

/-- Which columns a frame has (after `df.columns.str.strip()`). -/
structure Cols where
  city : Bool := false
  date : Bool := false
  time : Bool := false
  involved : Bool := false
  itype : Bool := false
  lat : Bool := false
  lon : Bool := false
deriving DecidableEq

/-- One successfully parsed CSV file: its column set and its rows. -/
structure RawFile where
  cols : Cols
  rows : List RawRow
deriving DecidableEq

/-- Column set of `pd.concat`: the union of the inputs' columns. -/
def unionCols (a b : Cols) : Cols :=
  ⟨a.city || b.city, a.date || b.date, a.time || b.time,
    a.involved || b.involved, a.itype || b.itype, a.lat || b.lat, a.lon || b.lon⟩

def concatCols (fs : List RawFile) : Cols :=
  fs.foldr (fun f acc => unionCols f.cols acc) {}

/-- Under `pd.concat`, a row coming from a file that lacks a column carries
NaN in that column. -/
def restrictRow (c : Cols) (r : RawRow) : RawRow where
  city := if c.city then r.city else none
  date := if c.date then r.date else none
  time := if c.time then r.time else none
  involved := if c.involved then r.involved else none
  itype := if c.itype then r.itype else none
  lat := if c.lat then r.lat else none
  lon := if c.lon then r.lon else none

def concatRows (fs : List RawFile) : List RawRow :=
  (fs.map (fun f => f.rows.map (restrictRow f.cols))).flatten

/-- Row of the unified table returned by `load_and_clean_data`. -/
structure CRow where
  city : Option String := none
  date : Option DateV := none
  time : Option Tod := none
  hour : Option Nat := none
  involved : Option String := none
  itype : Option String := none
  lat : Option ℚ := none
  lon : Option ℚ := none
  monthYear : Option (List Char) := none
deriving DecidableEq

/-- Per-row effect of the cleaning block, lines 56-76.  All column
operations of the source are element-wise, so they are gathered into one
row function: city fill/title/strip (guarded by column presence), `Time`
parse, two-step `Hour` derivation, `Involved` fill, `Month_Year` bucket. -/
def cleanRow (c : Cols) (r : RawRow) : CRow :=
  let t := r.time.bind parse12
  { city := if c.city then some (normCity r.city) else none
    date := r.date
    time := t
    hour := hourFromTime t
    involved := if c.involved then some (r.involved.getD "Unknown") else none
    itype := r.itype
    lat := r.lat
    lon := r.lon
    monthYear := r.date.map monthYearOf }

/-- Cleaning of the concatenated frame: `dropna(subset=['Date'])` (line 62),
`dropna(subset=['Latitude','Longitude'])` (line 73), and the element-wise
column fixes of `cleanRow`.  Row filters commute with the element-wise maps,
so they are applied first. -/
def cleanTable (c : Cols) (rows : List RawRow) : List CRow :=
  ((rows.filter (fun r => r.date.isSome)).filter
      (fun r => r.lat.isSome && r.lon.isSome)).map (cleanRow c)

/-- Halting outcomes of `load_and_clean_data`: `st.error` + `st.stop` for an
empty file list (line 29) and for no readable file (line 43), and the
uncaught `KeyError` raised by `df['Date']`, `df['Time']` or
`dropna(subset=['Latitude','Longitude'])` when the concatenated frame lacks
one of those columns (lines 61, 65, 73 run outside the try block). -/
inductive LoadErr where
  | noCsvFiles
  | noValidData
  | missingColumn
deriving DecidableEq

/-- `load_and_clean_data` (lines 18-78).  The input is the discovered CSV
file list; `none` stands for a file on which `pd.read_csv` raises (such
files are skipped with an `st.warning`, counted here).  On success the
result is the warning count and the unified cleaned table. -/
def load_and_clean_data (files : List (Option RawFile)) :
    Except LoadErr (Nat × List CRow) :=
  if files.isEmpty then .error .noCsvFiles
  else
    let parsed := files.filterMap id
    if parsed.isEmpty then .error .noValidData
    else
      let c := concatCols parsed
      if c.date && c.time && c.lat && c.lon then
        .ok ((files.filter (fun f => f.isNone)).length, cleanTable c (concatRows parsed))
      else .error .missingColumn

/-- Smart date handling, lines 103-112: two dates are a range, a single
date is the range `[d, d]`, otherwise the full min/max span. -/
def smart_date_range : List DateV → DateV → DateV → DateV × DateV
  | [s, e], _, _ => (s, e)
  | [d], _, _ => (d, d)
  | _, minD, maxD => (minD, maxD)

/-- Date conjunct of `mask` (lines 116-117):
`(df['Date'].dt.date >= start_date) & (df['Date'].dt.date <= end_date)`;
comparisons against NaT are false. -/
def rowInRange (s e : DateV) (r : CRow) : Bool :=
  match r.date with
  | some d => dateLe s d && dateLe d e
  | none => false

/-- City conjunct of `mask` (line 118): `df['City'].isin(selected_cities)`;
NaN is in no selection. -/
def rowCitySel (sel : List String) (r : CRow) : Bool :=
  match r.city with
  | some c => sel.contains c
  | none => false

/-- `filtered_df = df.loc[mask]` (lines 115-120). -/
def filtered_df (t : List CRow) (s e : DateV) (sel : List String) : List CRow :=
  t.filter (fun r => rowInRange s e r && rowCitySel sel r)

/-- Distinct values of a list in first-occurrence order, as the pandas hash
table underlying `value_counts`/`groupby` yields them. -/
def firstUniquesAux [DecidableEq α] (seen : List α) : List α → List α
  | [] => []
  | a :: l =>
    if a ∈ seen then firstUniquesAux seen l
    else a :: firstUniquesAux (a :: seen) l

def firstUniques [DecidableEq α] (l : List α) : List α :=
  firstUniquesAux [] l

/-- Code-point comparison on character lists: the strict string order pandas
uses when sorting `groupby` keys. -/
def lexLt : List Char → List Char → Bool
  | _, [] => false
  | [], _ :: _ => true
  | a :: as, b :: bs =>
    if a.toNat < b.toNat then true
    else if b.toNat < a.toNat then false
    else lexLt as bs

/-- Reflexive closure of `lexLt`, as a relation. -/
def LexLe (a b : List Char) : Prop :=
  lexLt b a = false

instance : DecidableRel LexLe := fun a b =>
  inferInstanceAs (Decidable (lexLt b a = false))

/-- Byte-wise (code-point) string comparison, the order pandas uses when
sorting string values. -/
def strLeB (a b : String) : Bool :=
  !(lexLt b.data a.data)

/-- Insertion of an element into a list using a boolean `le` test. -/
def insertLeB (le : α → α → Bool) (a : α) : List α → List α
  | [] => [a]
  | b :: l => if le a b then a :: b :: l else b :: insertLeB le a l

/-- Insertion sort by a boolean `le` test. -/
def sortLeB (le : α → α → Bool) : List α → List α
  | [] => []
  | a :: l => insertLeB le a (sortLeB le l)

/-- pandas `Series.mode()`: missing values dropped, the values attaining the
maximal count returned sorted ascending by the given comparison (so
`.mode()[0]` is the least modal value). -/
def seriesMode [DecidableEq α] (le : α → α → Bool) (vals : List (Option α)) :
    List α :=
  let xs := vals.filterMap id
  let uniq := firstUniques xs
  let mx := (uniq.map (fun v => xs.count v)).foldr max 0
  sortLeB le (uniq.filter (fun v => xs.count v = mx))

/-- `total_incidents = len(filtered_df)` (line 131). -/
def total_incidents (t : List CRow) : Nat :=
  t.length

/-- `top_city = filtered_df['City'].mode()[0] if not filtered_df.empty else
"N/A"` (line 132).  `none` models the `KeyError` raised by indexing `[0]`
into an empty mode result. -/
def top_city (t : List CRow) : Option String :=
  if t.isEmpty then some "N/A"
  else (seriesMode strLeB (t.map (fun r => r.city))).head?

/-- `top_incident` (line 133): guarded by non-emptiness and the presence of
the `Type` column. -/
def top_incident (hasType : Bool) (t : List CRow) : Option String :=
  if !t.isEmpty && hasType then
    (seriesMode strLeB (t.map (fun r => r.itype))).head?
  else some "N/A"

/-- `peak_hour_val = int(filtered_df['Hour'].mode()[0]) if not
filtered_df.empty else "N/A"` (line 134): an integer or the sentinel;
`none` models the `KeyError` raised by indexing `[0]` into an empty mode
result (all hours NaN). -/
def peak_hour_val (t : List CRow) : Option (Nat ⊕ String) :=
  if t.isEmpty then some (Sum.inr "N/A")
  else ((seriesMode (fun a b => a ≤ b) (t.map (fun r => r.hour))).head?).map
    Sum.inl

/-- `peak_hour_str` (line 135): the hour formatted `H:00`, or `N/A`. -/
def peak_hour_str (t : List CRow) : Option String :=
  (peak_hour_val t).map (fun v =>
    match v with
    | Sum.inl h => toString h ++ ":00"
    | Sum.inr s => s)

/-- Point list fed to `px.density_mapbox` (lines 178-188): the latitude and
longitude of each filtered record. -/
def geo_points (t : List CRow) : List (ℚ × ℚ) :=
  t.filterMap (fun r =>
    match r.lat, r.lon with
    | some la, some lo => some (la, lo)
    | _, _ => none)

/-- `trend_data = filtered_df.groupby('Month_Year').size()` (line 198):
rows with a missing key are dropped, the distinct keys are sorted
ascending as strings, and each carries its row count. -/
def trend_data (t : List CRow) : List (List Char × Nat) :=
  let ks := t.filterMap (fun r => r.monthYear)
  (List.insertionSort LexLe (firstUniques ks)).map (fun k => (k, ks.count k))

/-- Sakamoto's day-of-week algorithm, the arithmetic behind
`df['Date'].dt.day_name()`; 0 is Sunday. -/
def dayOfWeek (d : DateV) : Nat :=
  let t : List Nat := [0, 3, 2, 5, 0, 3, 5, 1, 4, 6, 2, 4]
  let y := if d.month < 3 then d.year - 1 else d.year
  (y + y / 4 - y / 100 + y / 400 + t.getD (d.month - 1) 0 + d.day) % 7

/-- `df['Date'].dt.day_name()`. -/
def dayName (d : DateV) : String :=
  match dayOfWeek d with
  | 0 => "Sunday"
  | 1 => "Monday"
  | 2 => "Tuesday"
  | 3 => "Wednesday"
  | 4 => "Thursday"
  | 5 => "Friday"
  | _ => "Saturday"

/-- Ordering of the `(Day_Name, Hour)` group keys: day name as a string,
then hour. -/
def dhLe (a b : String × Nat) : Bool :=
  if lexLt a.1.data b.1.data then true
  else if lexLt b.1.data a.1.data then false
  else a.2 ≤ b.2

/-- `heatmap_data = filtered_df.groupby(['Day_Name','Hour']).size()` (lines
210-211): rows with a NaN hour are dropped from the keys, keys sorted
ascending, each with its row count. -/
def heatmap_data (t : List CRow) : List ((String × Nat) × Nat) :=
  let ks := t.filterMap (fun r =>
    match r.date, r.hour with
    | some d, some h => some (dayName d, h)
    | _, _ => none)
  (sortLeB dhLe (firstUniques ks)).map (fun k => (k, ks.count k))

/-- Insertion of a counted pair keeping counts descending; an element moves
past another only when its count is strictly larger, so equal counts keep
their original relative order (stable). -/
def insertDesc (p : α × Nat) : List (α × Nat) → List (α × Nat)
  | [] => [p]
  | q :: l => if p.2 < q.2 then q :: insertDesc p l else p :: q :: l

/-- Stable insertion sort by count descending. -/
def sortCountDesc : List (α × Nat) → List (α × Nat)
  | [] => []
  | p :: l => insertDesc p (sortCountDesc l)

/-- pandas `Series.value_counts()`: missing values dropped, one pair per
distinct value in first-encountered order, stably sorted by count
descending (a stable sort is what pandas uses since 2.2). -/
def value_counts [DecidableEq α] (vals : List (Option α)) : List (α × Nat) :=
  let xs := vals.filterMap id
  sortCountDesc ((firstUniques xs).map (fun v => (v, xs.count v)))

/-- `veh_counts = filtered_df['Involved'].value_counts().head(10)`
(line 230). -/
def veh_counts (t : List CRow) : List (String × Nat) :=
  (value_counts (t.map (fun r => r.involved))).take 10

/-- Sample cleaned record (Makati) used to instantiate theorems. -/
def sampleRowMakati : CRow :=
  { city := some "Makati", date := some ⟨2023, 2, 1⟩, hour := some 14,
    involved := some "CAR", itype := some "COLLISION", lat := some 14,
    lon := some 121, monthYear := some ("2023-02".data) }

/-- Sample cleaned record (Pasig) used to instantiate theorems. -/
def sampleRowPasig : CRow :=
  { city := some "Pasig", date := some ⟨2023, 3, 5⟩, hour := some 8,
    involved := some "BUS", itype := some "COLLISION", lat := some 15,
    lon := some 121, monthYear := some ("2023-03".data) }

/-- CSV file having every pipeline-required column but no `City` column. -/
def fileNoCity : RawFile :=
  ⟨{ date := true, time := true, lat := true, lon := true, involved := true },
    [{ date := some ⟨2023, 2, 1⟩, involved := some "CAR",
       lat := some 14, lon := some 121 }]⟩

/-- Unified record produced from `fileNoCity`; its city is absent. -/
def rowNoCity : CRow :=
  { date := some ⟨2023, 2, 1⟩, involved := some "CAR",
    lat := some 14, lon := some 121, monthYear := some ("2023-02".data) }

/-- Cleaned record whose hour is absent (its `Time` cell was missing). -/
def rowNoHour : CRow :=
  { date := some ⟨2023, 2, 1⟩, lat := some 14, lon := some 121 }

/-- CSV file having `Date`, `Latitude`, `Longitude` but no `Time` column. -/
def fileNoTime : RawFile :=
  ⟨{ date := true, lat := true, lon := true },
    [{ date := some ⟨2023, 2, 1⟩, lat := some 14, lon := some 121 }]⟩

/-- CSV file with all columns and one fully populated row. -/
def fileFull : RawFile :=
  ⟨{ city := true, date := true, time := true, involved := true,
     itype := true, lat := true, lon := true },
    [{ city := some "makati", date := some ⟨2023, 2, 1⟩,
       time := some ("2:15 PM".data), involved := some "CAR",
       itype := some "COLLISION", lat := some 14, lon := some 121 }]⟩

/-!  Order theory for `lexLt` (code-point string comparison).  -/

theorem char_eq_of_toNat_eq {a b : Char} (h : a.toNat = b.toNat) : a = b := by
  have h2 := congrArg Char.ofNat h
  rwa [Char.ofNat_toNat, Char.ofNat_toNat] at h2

theorem lexLt_nil_right (a : List Char) : lexLt a [] = false := by
  cases a <;> rfl

theorem lexLt_irrefl : ∀ a, lexLt a a = false
  | [] => rfl
  | c :: cs => by simp [lexLt, lexLt_irrefl cs]

theorem lexLt_asymm : ∀ a b, lexLt a b = true → lexLt b a = false
  | _, [], h => by rw [lexLt_nil_right] at h; cases h
  | [], _ :: _, _ => rfl
  | a :: as, b :: bs, h => by
    simp only [lexLt] at h ⊢
    by_cases hab : a.toNat < b.toNat
    · have : ¬ b.toNat < a.toNat := by omega
      simp [this, hab]
    · by_cases hba : b.toNat < a.toNat
      · simp [hab, hba] at h
      · simp only [hab, if_false, hba, if_false] at h ⊢
        exact lexLt_asymm as bs h

theorem lexLt_connex : ∀ a b, lexLt a b = false → lexLt b a = false → a = b
  | [], [], _, _ => rfl
  | [], _ :: _, h, _ => by simp [lexLt] at h
  | _ :: _, [], _, h => by simp [lexLt] at h
  | a :: as, b :: bs, h1, h2 => by
    simp only [lexLt] at h1 h2
    by_cases hab : a.toNat < b.toNat
    · simp [hab] at h1
    · by_cases hba : b.toNat < a.toNat
      · simp [hba] at h2
      · simp only [hab, if_false, hba, if_false] at h1 h2
        have he : a = b := char_eq_of_toNat_eq (by omega)
        rw [he, lexLt_connex as bs h1 h2]

theorem lexLt_trans : ∀ a b c, lexLt a b = true → lexLt b c = true → lexLt a c = true
  | _, b, [], _, h2 => by rw [lexLt_nil_right] at h2; cases h2
  | _, [], _ :: _, h1, _ => by rw [lexLt_nil_right] at h1; cases h1
  | [], _ :: _, _ :: _, _, _ => rfl
  | a :: as, b :: bs, c :: cs, h1, h2 => by
    simp only [lexLt] at h1 h2 ⊢
    by_cases hab : a.toNat < b.toNat <;> by_cases hbc : b.toNat < c.toNat
    · have : a.toNat < c.toNat := by omega
      simp [this]
    · by_cases hcb : c.toNat < b.toNat
      · simp [hbc, hcb] at h2
      · have : a.toNat < c.toNat := by omega
        simp [this]
    · by_cases hba : b.toNat < a.toNat
      · simp [hab, hba] at h1
      · have : a.toNat < c.toNat := by omega
        simp [this]
    · by_cases hba : b.toNat < a.toNat
      · simp [hab, hba] at h1
      · by_cases hcb : c.toNat < b.toNat
        · simp [hbc, hcb] at h2
        · have hac : ¬ a.toNat < c.toNat := by omega
          have hca : ¬ c.toNat < a.toNat := by omega
          simp only [hab, if_false, hba, if_false] at h1
          simp only [hbc, if_false, hcb, if_false] at h2
          simp only [hac, if_false, hca, if_false]
          exact lexLt_trans as bs cs h1 h2

theorem lexLt_of_le_of_ne {a b : List Char} (h : LexLe a b) (hne : a ≠ b) :
    lexLt a b = true := by
  by_cases hab : lexLt a b = true
  · exact hab
  · exact absurd (lexLt_connex a b (by simpa using hab) h) hne

instance : IsTotal (List Char) LexLe :=
  ⟨fun a b => by
    by_cases h : lexLt b a = true
    · exact Or.inr (lexLt_asymm b a h)
    · exact Or.inl (by simpa using h)⟩

instance : IsTrans (List Char) LexLe :=
  ⟨fun a b c h1 h2 => by
    unfold LexLe at h1 h2 ⊢
    by_cases hca : lexLt c a = true
    · by_cases hab : lexLt a b = true
      · rw [lexLt_trans c a b hca hab] at h2; cases h2
      · have : a = b := lexLt_connex a b (by simpa using hab) h1
        rw [this] at hca
        rw [hca] at h2; cases h2
    · simpa using hca⟩

instance : IsAntisymm (List Char) LexLe :=
  ⟨fun a b h1 h2 => lexLt_connex a b h2 h1⟩

/-!  Fixed-width decimal prints are ordered like the numbers they print.  -/

theorem lexLt_append : ∀ (as bs cs ds : List Char), as.length = bs.length →
    (lexLt (as ++ cs) (bs ++ ds) = true ↔
      lexLt as bs = true ∨ (as = bs ∧ lexLt cs ds = true))
  | [], [], cs, ds, _ => by simp [lexLt_nil_right]
  | [], _ :: _, _, _, h => by simp at h
  | _ :: _, [], _, _, h => by simp at h
  | a :: as, b :: bs, cs, ds, h => by
    simp only [List.cons_append, lexLt]
    by_cases hab : a.toNat < b.toNat
    · simp [hab]
    · by_cases hba : b.toNat < a.toNat
      · have hne : a ≠ b := fun he => by rw [he] at hba; omega
        simp [hab, hba, hne]
      · have he : a = b := char_eq_of_toNat_eq (by omega)
        subst he
        have hlen : as.length = bs.length := by simpa using h
        rw [if_neg (lt_irrefl _), if_neg (lt_irrefl _), if_neg (lt_irrefl _),
          if_neg (lt_irrefl _)]
        simp only [List.cons.injEq, true_and]
        exact lexLt_append as bs cs ds hlen

theorem fmtW_length : ∀ w n, (fmtW w n).length = w
  | 0, _ => rfl
  | w + 1, n => by simp [fmtW, fmtW_length w]

theorem digitChar_toNat (n : Nat) (h : n < 10) :
    (Nat.digitChar n).toNat = 48 + n := by
  interval_cases n <;> decide

theorem lexLt_single (x y : Char) :
    (lexLt [x] [y] = true ↔ x.toNat < y.toNat) := by
  simp only [lexLt]
  by_cases h : x.toNat < y.toNat
  · simp [h]
  · by_cases h2 : y.toNat < x.toNat <;> simp [h, h2]

theorem fmtW_inj : ∀ w a b, a < 10 ^ w → b < 10 ^ w →
    (fmtW w a = fmtW w b ↔ a = b)
  | 0, a, b, ha, hb => by
    simp only [pow_zero, Nat.lt_one_iff] at ha hb
    simp [fmtW, ha, hb]
  | w + 1, a, b, ha, hb => by
    rw [pow_succ] at ha hb
    have ha10 : a / 10 < 10 ^ w := (Nat.div_lt_iff_lt_mul (by omega)).mpr ha
    have hb10 : b / 10 < 10 ^ w := (Nat.div_lt_iff_lt_mul (by omega)).mpr hb
    simp only [fmtW]
    constructor
    · intro h
      have hlen : (fmtW w (a / 10)).length = (fmtW w (b / 10)).length := by
        rw [fmtW_length, fmtW_length]
      obtain ⟨h1, h2⟩ := List.append_inj h hlen
      have hd : a % 10 = b % 10 := by
        have := List.head_eq_of_cons_eq h2
        have ha9 : a % 10 < 10 := Nat.mod_lt _ (by omega)
        have hb9 : b % 10 < 10 := Nat.mod_lt _ (by omega)
        have := congrArg Char.toNat this
        rw [digitChar_toNat _ ha9, digitChar_toNat _ hb9] at this
        omega
      have hq : a / 10 = b / 10 := (fmtW_inj w _ _ ha10 hb10).mp h1
      omega
    · intro h; rw [h]

theorem fmtW_lt_iff : ∀ w a b, a < 10 ^ w → b < 10 ^ w →
    (lexLt (fmtW w a) (fmtW w b) = true ↔ a < b)
  | 0, a, b, ha, hb => by
    simp only [pow_zero, Nat.lt_one_iff] at ha hb
    simp [fmtW, ha, hb, lexLt_nil_right]
  | w + 1, a, b, ha, hb => by
    rw [pow_succ] at ha hb
    have ha10 : a / 10 < 10 ^ w := (Nat.div_lt_iff_lt_mul (by omega)).mpr ha
    have hb10 : b / 10 < 10 ^ w := (Nat.div_lt_iff_lt_mul (by omega)).mpr hb
    have ha9 : a % 10 < 10 := Nat.mod_lt _ (by omega)
    have hb9 : b % 10 < 10 := Nat.mod_lt _ (by omega)
    simp only [fmtW]
    rw [lexLt_append _ _ _ _ (by rw [fmtW_length, fmtW_length])]
    rw [fmtW_lt_iff w _ _ ha10 hb10, fmtW_inj w _ _ ha10 hb10, lexLt_single,
      digitChar_toNat _ ha9, digitChar_toNat _ hb9]
    omega

/-- Month buckets compare as strings exactly as the underlying
(year, month) pairs compare chronologically. -/
theorem monthYear_lt_iff (d1 d2 : DateV) (h1 : ValidDate d1) (h2 : ValidDate d2) :
    (lexLt (monthYearOf d1) (monthYearOf d2) = true ↔
      (d1.year < d2.year ∨ (d1.year = d2.year ∧ d1.month < d2.month))) := by
  obtain ⟨hy1a, hy1b, hm1a, hm1b, -, -⟩ := h1
  obtain ⟨hy2a, hy2b, hm2a, hm2b, -, -⟩ := h2
  have hy1 : d1.year < 10 ^ 4 := by omega
  have hy2 : d2.year < 10 ^ 4 := by omega
  have hm1 : d1.month < 10 ^ 2 := by omega
  have hm2 : d2.month < 10 ^ 2 := by omega
  unfold monthYearOf
  rw [show ('-' :: fmtW 2 d1.month) = ['-'] ++ fmtW 2 d1.month from rfl,
    show ('-' :: fmtW 2 d2.month) = ['-'] ++ fmtW 2 d2.month from rfl,
    ← List.append_assoc, ← List.append_assoc,
    lexLt_append _ _ _ _ (by simp [fmtW_length]),
    lexLt_append _ _ _ _ (by rw [fmtW_length, fmtW_length]),
    fmtW_lt_iff 4 _ _ hy1 hy2,
    fmtW_lt_iff 2 _ _ hm1 hm2]
  have hdash : lexLt ['-'] ['-'] = false := lexLt_irrefl ['-']
  simp [hdash, fmtW_inj 4 _ _ hy1 hy2]

/-!  Properties of `firstUniques`.  -/

theorem mem_firstUniquesAux [DecidableEq α] (x : α) :
    ∀ (l seen : List α), x ∈ firstUniquesAux seen l ↔ x ∈ l ∧ x ∉ seen
  | [], seen => by simp [firstUniquesAux]
  | a :: l, seen => by
    simp only [firstUniquesAux]
    by_cases hm : a ∈ seen
    · rw [if_pos hm, mem_firstUniquesAux x l seen]
      simp only [List.mem_cons]
      constructor
      · rintro ⟨h1, h2⟩; exact ⟨Or.inr h1, h2⟩
      · rintro ⟨h1 | h1, h2⟩
        · exact absurd (h1 ▸ hm) h2
        · exact ⟨h1, h2⟩
    · rw [if_neg hm]
      simp only [List.mem_cons, mem_firstUniquesAux x l (a :: seen)]
      constructor
      · rintro (he | ⟨h1, h2⟩)
        · exact ⟨Or.inl he, he ▸ hm⟩
        · exact ⟨Or.inr h1, fun hs => h2 (Or.inr hs)⟩
      · rintro ⟨he | h1, h2⟩
        · exact Or.inl he
        · by_cases hxa : x = a
          · exact Or.inl hxa
          · exact Or.inr ⟨h1, fun hs => hs.elim hxa h2⟩

theorem mem_firstUniques [DecidableEq α] (x : α) (l : List α) :
    x ∈ firstUniques l ↔ x ∈ l := by
  unfold firstUniques
  rw [mem_firstUniquesAux]
  simp

theorem nodup_firstUniquesAux [DecidableEq α] :
    ∀ (l seen : List α), (firstUniquesAux seen l).Nodup
  | [], _ => List.nodup_nil
  | a :: l, seen => by
    simp only [firstUniquesAux]
    by_cases hm : a ∈ seen
    · rw [if_pos hm]; exact nodup_firstUniquesAux l seen
    · rw [if_neg hm]
      refine List.nodup_cons.mpr ⟨fun hx => ?_, nodup_firstUniquesAux l (a :: seen)⟩
      have := (mem_firstUniquesAux a l (a :: seen)).mp hx
      exact this.2 (List.mem_cons_self a seen)

theorem nodup_firstUniques [DecidableEq α] (l : List α) :
    (firstUniques l).Nodup :=
  nodup_firstUniquesAux l []

/-!  Folded maximum.  -/

theorem le_foldr_max : ∀ (l : List Nat), ∀ x ∈ l, x ≤ l.foldr max 0
  | [] => by intro x hx; cases hx
  | a :: l => by
    intro x hx
    rcases List.mem_cons.mp hx with he | h
    · subst he; exact le_max_left _ _
    · exact le_trans (le_foldr_max l x h) (le_max_right _ _)

theorem foldr_max_mem : ∀ (l : List Nat), l ≠ [] → l.foldr max 0 ∈ l
  | [], h => absurd rfl h
  | [a], _ => by simp
  | a :: b :: l, _ => by
    rcases le_total a ((b :: l).foldr max 0) with h | h
    · rw [List.foldr_cons, max_eq_right h]
      exact List.mem_cons_of_mem a (foldr_max_mem (b :: l) (by simp))
    · rw [List.foldr_cons, max_eq_left h]
      exact List.mem_cons_self a (b :: l)

/-!  Properties of the stable count-descending sort.  -/

theorem insertDesc_perm {α : Type} (p : α × Nat) :
    ∀ l : List (α × Nat), (insertDesc p l).Perm (p :: l)
  | [] => List.Perm.refl _
  | q :: l => by
    simp only [insertDesc]
    by_cases h : p.2 < q.2
    · rw [if_pos h]
      exact ((insertDesc_perm p l).cons q).trans (List.Perm.swap p q l)
    · rw [if_neg h]

theorem sortCountDesc_perm {α : Type} :
    ∀ l : List (α × Nat), (sortCountDesc l).Perm l
  | [] => List.Perm.refl _
  | p :: l =>
    (insertDesc_perm p (sortCountDesc l)).trans ((sortCountDesc_perm l).cons p)

theorem insertDesc_sorted {α : Type} (p : α × Nat) :
    ∀ l : List (α × Nat), l.Pairwise (fun x y => y.2 ≤ x.2) →
      (insertDesc p l).Pairwise (fun x y => y.2 ≤ x.2)
  | [], _ => List.pairwise_singleton _ _
  | q :: l, h => by
    simp only [insertDesc]
    obtain ⟨hq, hl⟩ := List.pairwise_cons.mp h
    by_cases hc : p.2 < q.2
    · rw [if_pos hc]
      refine List.pairwise_cons.mpr ⟨fun x hx => ?_, insertDesc_sorted p l hl⟩
      rcases List.mem_cons.mp ((insertDesc_perm p l).mem_iff.mp hx) with he | hxl
      · subst he; omega
      · exact hq x hxl
    · rw [if_neg hc]
      refine List.pairwise_cons.mpr ⟨fun x hx => ?_, h⟩
      rcases List.mem_cons.mp hx with he | hxl
      · subst he; omega
      · exact le_trans (hq x hxl) (by omega)

theorem sortCountDesc_sorted {α : Type} :
    ∀ l : List (α × Nat), (sortCountDesc l).Pairwise (fun x y => y.2 ≤ x.2)
  | [] => List.Pairwise.nil
  | p :: l => insertDesc_sorted p (sortCountDesc l) (sortCountDesc_sorted l)

/-- Stability of `insertDesc` expressed through count classes: the pairs
carrying a fixed count keep their relative order. -/
theorem filter_insertDesc {α : Type} (c : Nat) (p : α × Nat) :
    ∀ l : List (α × Nat),
      (insertDesc p l).filter (fun q => q.2 = c) =
        if p.2 = c then p :: l.filter (fun q => q.2 = c)
        else l.filter (fun q => q.2 = c)
  | [] => by
    simp only [insertDesc, List.filter]
    by_cases h : p.2 = c <;> simp [h]
  | q :: l => by
    simp only [insertDesc]
    by_cases hc : p.2 < q.2
    · rw [if_pos hc, List.filter_cons, filter_insertDesc c p l]
      by_cases hp : p.2 = c
      · have hq : ¬ (q.2 = c) := by omega
        simp [hp, hq, List.filter_cons]
      · simp only [hp, if_false]
        by_cases hq : q.2 = c <;> simp [hq, List.filter_cons]
    · rw [if_neg hc, List.filter_cons, List.filter_cons]
      by_cases hp : p.2 = c <;> simp [hp]

theorem filter_sortCountDesc {α : Type} (c : Nat) :
    ∀ l : List (α × Nat),
      (sortCountDesc l).filter (fun q => q.2 = c) = l.filter (fun q => q.2 = c)
  | [] => rfl
  | p :: l => by
    rw [sortCountDesc, filter_insertDesc c p (sortCountDesc l),
      filter_sortCountDesc c l, List.filter_cons]
    by_cases hp : p.2 = c <;> simp [hp]

/-!  Characterization of `seriesMode` (pandas `Series.mode()`).  -/

theorem filterMap_id_map {α β : Type} (f : α → Option β) (l : List α) :
    (l.map f).filterMap id = l.filterMap f := by
  rw [List.filterMap_map]; rfl

theorem insertLeB_perm {α : Type} (le : α → α → Bool) (a : α) :
    ∀ l : List α, (insertLeB le a l).Perm (a :: l)
  | [] => List.Perm.refl _
  | b :: l => by
    simp only [insertLeB]
    by_cases h : le a b = true
    · rw [if_pos h]
    · rw [if_neg h]
      exact ((insertLeB_perm le a l).cons b).trans (List.Perm.swap a b l)

theorem sortLeB_perm {α : Type} (le : α → α → Bool) :
    ∀ l : List α, (sortLeB le l).Perm l
  | [] => List.Perm.refl _
  | a :: l =>
    (insertLeB_perm le a (sortLeB le l)).trans ((sortLeB_perm le l).cons a)

theorem insertLeB_pairwise {α : Type} (le : α → α → Bool)
    (htot : ∀ a b, le a b = true ∨ le b a = true)
    (htrans : ∀ a b c, le a b = true → le b c = true → le a c = true) (a : α) :
    ∀ l : List α, l.Pairwise (fun x y => le x y = true) →
      (insertLeB le a l).Pairwise (fun x y => le x y = true)
  | [], _ => List.pairwise_singleton _ _
  | b :: l, h => by
    obtain ⟨hb, hl⟩ := List.pairwise_cons.mp h
    simp only [insertLeB]
    by_cases hab : le a b = true
    · rw [if_pos hab]
      refine List.pairwise_cons.mpr ⟨?_, h⟩
      intro x hx
      rcases List.mem_cons.mp hx with he | hxl
      · exact he ▸ hab
      · exact htrans a b x hab (hb x hxl)
    · rw [if_neg hab]
      have hba : le b a = true := (htot a b).resolve_left hab
      refine List.pairwise_cons.mpr
        ⟨?_, insertLeB_pairwise le htot htrans a l hl⟩
      intro x hx
      rcases List.mem_cons.mp ((insertLeB_perm le a l).mem_iff.mp hx) with he | hxl
      · exact he ▸ hba
      · exact hb x hxl

theorem sortLeB_pairwise {α : Type} (le : α → α → Bool)
    (htot : ∀ a b, le a b = true ∨ le b a = true)
    (htrans : ∀ a b c, le a b = true → le b c = true → le a c = true) :
    ∀ l : List α, (sortLeB le l).Pairwise (fun x y => le x y = true)
  | [] => List.Pairwise.nil
  | a :: l =>
    insertLeB_pairwise le htot htrans a (sortLeB le l)
      (sortLeB_pairwise le htot htrans l)

theorem seriesMode_head_spec {α : Type} [DecidableEq α] (le : α → α → Bool)
    (htot : ∀ a b, le a b = true ∨ le b a = true)
    (htrans : ∀ a b c, le a b = true → le b c = true → le a c = true)
    (vals : List (Option α)) (v : α)
    (h : (seriesMode le vals).head? = some v) :
    v ∈ vals.filterMap id ∧
      (∀ w ∈ vals.filterMap id,
        (vals.filterMap id).count w ≤ (vals.filterMap id).count v) ∧
      (∀ w ∈ vals.filterMap id,
        (vals.filterMap id).count w = (vals.filterMap id).count v →
          le v w = true) := by
  set xs := vals.filterMap id with hxs
  set uniq := firstUniques xs with huniq
  set mx := (uniq.map (fun u => xs.count u)).foldr max 0 with hmx
  set filt := uniq.filter (fun u => xs.count u = mx) with hfilt
  have hdef : seriesMode le vals = sortLeB le filt := rfl
  rw [hdef] at h
  have hsort : (sortLeB le filt).Pairwise (fun x y => le x y = true) :=
    sortLeB_pairwise le htot htrans filt
  have hperm := sortLeB_perm le filt
  cases hs : sortLeB le filt with
  | nil => rw [hs] at h; cases h
  | cons a rest =>
    rw [hs] at h
    have hav : a = v := by simpa using h
    subst hav
    rw [hs] at hsort hperm
    have hvf : a ∈ filt := hperm.mem_iff.mp (List.mem_cons_self a rest)
    obtain ⟨hvu, hvc⟩ := List.mem_filter.mp hvf
    have hvcount : xs.count a = mx := of_decide_eq_true hvc
    have hvxs : a ∈ xs := (mem_firstUniques a xs).mp hvu
    refine ⟨hvxs, ?_, ?_⟩
    · intro w hw
      have hwu : w ∈ uniq := (mem_firstUniques w xs).mpr hw
      have h1 : xs.count w ∈ uniq.map (fun u => xs.count u) :=
        List.mem_map_of_mem _ hwu
      have h2 := le_foldr_max _ _ h1
      omega
    · intro w hw hcw
      have hwu : w ∈ uniq := (mem_firstUniques w xs).mpr hw
      have hwf : w ∈ filt := List.mem_filter.mpr ⟨hwu, decide_eq_true (by omega)⟩
      have hwm : w ∈ a :: rest := hperm.mem_iff.mpr hwf
      rcases List.mem_cons.mp hwm with he | hr
      · subst he
        exact (htot w w).elim id id
      · exact (List.pairwise_cons.mp hsort).1 w hr

theorem seriesMode_ne_nil {α : Type} [DecidableEq α] (le : α → α → Bool)
    (vals : List (Option α)) (h : vals.filterMap id ≠ []) :
    ∃ v, (seriesMode le vals).head? = some v := by
  set xs := vals.filterMap id with hxs
  set uniq := firstUniques xs with huniq
  set mx := (uniq.map (fun u => xs.count u)).foldr max 0 with hmx
  set filt := uniq.filter (fun u => xs.count u = mx) with hfilt
  have hdef : seriesMode le vals = sortLeB le filt := rfl
  obtain ⟨x, hx⟩ := List.exists_mem_of_ne_nil _ h
  have hxu : x ∈ uniq := (mem_firstUniques x xs).mpr hx
  have hmap_ne : uniq.map (fun u => xs.count u) ≠ [] := by
    simpa using List.ne_nil_of_mem hxu
  have hmx_mem : mx ∈ uniq.map (fun u => xs.count u) := foldr_max_mem _ hmap_ne
  obtain ⟨u, hu, hcu⟩ := List.mem_map.mp hmx_mem
  have huf : u ∈ filt := List.mem_filter.mpr ⟨hu, decide_eq_true hcu⟩
  have hufs : u ∈ sortLeB le filt := (sortLeB_perm le filt).mem_iff.mpr huf
  cases hs : sortLeB le filt with
  | nil => rw [hs] at hufs; cases hufs
  | cons a rest => exact ⟨a, by rw [hdef, hs]; rfl⟩

/-- Totality of the byte-wise string comparison. -/
theorem strLeB_total (a b : String) : strLeB a b = true ∨ strLeB b a = true := by
  unfold strLeB
  by_cases h : lexLt b.data a.data = true
  · right
    simp [lexLt_asymm _ _ h]
  · left
    simp [h]

/-- Transitivity of the byte-wise string comparison. -/
theorem strLeB_trans (a b c : String) (h1 : strLeB a b = true)
    (h2 : strLeB b c = true) : strLeB a c = true := by
  unfold strLeB at h1 h2 ⊢
  rw [Bool.not_eq_true'] at h1 h2 ⊢
  by_cases hca : lexLt c.data a.data = true
  · by_cases hab : lexLt a.data b.data = true
    · rw [lexLt_trans c.data a.data b.data hca hab] at h2
      cases h2
    · have he : a.data = b.data := lexLt_connex a.data b.data (by simpa using hab) h1
      rw [he] at hca
      rw [hca] at h2
      cases h2
  · simpa using hca

theorem natLeB_total (a b : Nat) :
    (decide (a ≤ b)) = true ∨ (decide (b ≤ a)) = true := by
  rcases Nat.le_total a b with h | h
  · left; simpa using h
  · right; simpa using h

theorem natLeB_trans (a b c : Nat) (h1 : (decide (a ≤ b)) = true)
    (h2 : (decide (b ≤ c)) = true) : (decide (a ≤ c)) = true := by
  simp only [decide_eq_true_eq] at h1 h2 ⊢
  omega

/-!  Order facts about `dateLe`.  -/

theorem dateLe_refl (d : DateV) : dateLe d d = true := by
  simp [dateLe]

theorem dateLe_antisymm {a b : DateV} (h1 : dateLe a b = true)
    (h2 : dateLe b a = true) : a = b := by
  cases a with | mk y1 m1 d1 =>
  cases b with | mk y2 m2 d2 =>
  simp only [dateLe, decide_eq_true_eq] at h1 h2
  simp only [DateV.mk.injEq]
  split_ifs at h1 h2 <;> simp_all <;> omega

/-!  Count translation between the `Involved` value list and row filters.  -/

theorem count_filterMap_involved (t : List CRow) (v : String) :
    (t.filterMap (fun r => r.involved)).count v =
      (t.filter (fun r => r.involved = some v)).length := by
  induction t with
  | nil => rfl
  | cons r t ih =>
    cases hr : r.involved with
    | none =>
      rw [List.filterMap_cons_none hr, List.filter_cons_of_neg (by simp [hr]), ih]
    | some s =>
      rw [List.filterMap_cons_some hr, List.count_cons, List.filter_cons]
      by_cases hsv : s = v
      · subst hsv
        simp [hr, ih]
      · simp [hr, hsv, ih]

/-!  Lemmas about the time round trip (format to text, reparse the hour).  -/

theorem digitVal_digitChar (n : Nat) (h : n < 10) :
    digitVal (Nat.digitChar n) = some n := by
  interval_cases n <;> decide

theorem fmtW_two (n : Nat) :
    fmtW 2 n = [Nat.digitChar (n / 10 % 10), Nat.digitChar (n % 10)] := by
  simp [fmtW, Nat.div_div_eq_div_mul]

theorem hourFromTime_some (t : Tod) (hh : t.hour < 24) (hm : t.minute < 60) :
    hourFromTime (some t) = some t.hour := by
  have hh10 : t.hour / 10 % 10 = t.hour / 10 := Nat.mod_eq_of_lt (by omega)
  have hm10 : t.minute / 10 % 10 = t.minute / 10 := Nat.mod_eq_of_lt (by omega)
  have e1 : hourFromTime (some t) =
      reparseHour [Nat.digitChar (t.hour / 10), Nat.digitChar (t.hour % 10), ':',
        Nat.digitChar (t.minute / 10), Nat.digitChar (t.minute % 10), ':', '0', '0'] := by
    simp only [hourFromTime, timeText, formatTod, fmtW_two, hh10, hm10]
    rfl
  rw [e1]
  simp only [reparseHour, digitVal_digitChar (t.hour / 10) (by omega),
    digitVal_digitChar (t.hour % 10) (Nat.mod_lt _ (by omega)),
    digitVal_digitChar (t.minute / 10) (by omega),
    digitVal_digitChar (t.minute % 10) (Nat.mod_lt _ (by omega)),
    show digitVal '0' = some 0 from by decide]
  have harith1 : 10 * (t.hour / 10) + t.hour % 10 = t.hour := by omega
  have harith2 : 10 * (t.minute / 10) + t.minute % 10 = t.minute := by omega
  simp [harith1, harith2, hh, hm]

theorem hourFromTime_none : hourFromTime none = none := rfl

theorem parse12_valid (cs : List Char) (t : Tod) (h : parse12 cs = some t) :
    t.hour < 24 ∧ t.minute < 60 := by
  unfold parse12 at h
  split at h
  · exact absurd h (by simp)
  · split at h
    · split at h
      · exact absurd h (by simp)
      · split at h
        · split at h
          · exact absurd h (by simp)
          · split at h
            · rename_i hcond
              simp only [Bool.and_eq_true, decide_eq_true_eq] at hcond
              cases h
              constructor
              · dsimp only
                split <;> omega
              · dsimp only
                omega
            · exact absurd h (by simp)
        · exact absurd h (by simp)
    · exact absurd h (by simp)

/-!  Membership in the filtered table.  -/

theorem mem_filtered_iff (t : List CRow) (s e : DateV) (sel : List String)
    (r : CRow) :
    r ∈ filtered_df t s e sel ↔
      r ∈ t ∧ (∃ d, r.date = some d ∧ dateLe s d = true ∧ dateLe d e = true) ∧
        (∃ c, r.city = some c ∧ c ∈ sel) := by
  unfold filtered_df
  rw [List.mem_filter]
  constructor
  · rintro ⟨hmem, hmask⟩
    rw [Bool.and_eq_true] at hmask
    obtain ⟨h1, h2⟩ := hmask
    refine ⟨hmem, ?_, ?_⟩
    · unfold rowInRange at h1
      cases hd : r.date with
      | none => rw [hd] at h1; cases h1
      | some d =>
        rw [hd, Bool.and_eq_true] at h1
        exact ⟨d, rfl, h1.1, h1.2⟩
    · unfold rowCitySel at h2
      cases hc : r.city with
      | none => rw [hc] at h2; cases h2
      | some c =>
        rw [hc] at h2
        exact ⟨c, rfl, by simpa using h2⟩
  · rintro ⟨hmem, ⟨d, hd, h1, h2⟩, ⟨c, hc, hcs⟩⟩
    refine ⟨hmem, ?_⟩
    rw [Bool.and_eq_true]
    constructor
    · unfold rowInRange
      rw [hd, Bool.and_eq_true]
      exact ⟨h1, h2⟩
    · unfold rowCitySel
      rw [hc]
      simpa using hcs

theorem filtered_df_nil_sel (t : List CRow) (s e : DateV) :
    filtered_df t s e [] = [] := by
  unfold filtered_df
  rw [List.filter_eq_nil_iff]
  intro r _
  unfold rowCitySel
  cases r.city <;> simp

/-- C2: a record is in the filtered result iff it is in the unified table,
its date lies in `[start, end]` (inclusive, by calendar date) and its city
is a member of the selected set; both directions hold, so the filter is
sound and complete. -/
theorem C2_filter_range_correct (t : List CRow) (s e : DateV) (sel : List String)
    (r : CRow) (hse : dateLe s e = true) :
    r ∈ filtered_df t s e sel ↔
      r ∈ t ∧ (∃ d, r.date = some d ∧ dateLe s d = true ∧ dateLe d e = true) ∧
        (∃ c, r.city = some c ∧ c ∈ sel) :=
  mem_filtered_iff t s e sel r

/-- Witness for C2 at a concrete one-row table and range. -/
theorem C2_filter_range_correct_witness :
    dateLe ⟨2023, 1, 1⟩ ⟨2023, 12, 31⟩ = true ∧
      sampleRowMakati ∈
        filtered_df [sampleRowMakati] ⟨2023, 1, 1⟩ ⟨2023, 12, 31⟩ ["Makati"] :=
  ⟨by decide,
    (C2_filter_range_correct [sampleRowMakati] ⟨2023, 1, 1⟩ ⟨2023, 12, 31⟩
        ["Makati"] sampleRowMakati (by decide)).mpr
      ⟨by simp, ⟨⟨2023, 2, 1⟩, rfl, by decide, by decide⟩,
        ⟨"Makati", rfl, by simp⟩⟩⟩

/-- C10: when exactly one date `d` is supplied, the range resolves to the
single-day range `[d, d]`, so the filtered result holds exactly the records
with date `d` (and a selected city). -/
theorem C10_single_date (t : List CRow) (d : DateV) (sel : List String)
    (minD maxD : DateV) (r : CRow) :
    smart_date_range [d] minD maxD = (d, d) ∧
      (r ∈ filtered_df t (smart_date_range [d] minD maxD).1
          (smart_date_range [d] minD maxD).2 sel ↔
        r ∈ t ∧ r.date = some d ∧ ∃ c, r.city = some c ∧ c ∈ sel) := by
  refine ⟨rfl, ?_⟩
  rw [show smart_date_range [d] minD maxD = (d, d) from rfl]
  rw [mem_filtered_iff]
  constructor
  · rintro ⟨hmem, ⟨d', hd', h1, h2⟩, hcity⟩
    exact ⟨hmem, by rw [hd', dateLe_antisymm h2 h1], hcity⟩
  · rintro ⟨hmem, hd, hcity⟩
    exact ⟨hmem, ⟨d, hd, dateLe_refl d, dateLe_refl d⟩, hcity⟩

/-- C8: filtering with an empty city selection yields an empty table, and
on the empty table the metrics give 0 and the `N/A` sentinel while the geo
list, trend series, hour-by-day matrix and vehicle ranking are all empty,
with no computation failing. -/
theorem C8_zero_cities_degenerate (t : List CRow) (s e : DateV) (hasType : Bool) :
    filtered_df t s e [] = [] ∧
      total_incidents (filtered_df t s e []) = 0 ∧
      top_city [] = some "N/A" ∧
      top_incident hasType [] = some "N/A" ∧
      peak_hour_str [] = some "N/A" ∧
      geo_points [] = [] ∧
      trend_data [] = [] ∧
      heatmap_data [] = [] ∧
      veh_counts [] = [] := by
  have h0 := filtered_df_nil_sel t s e
  refine ⟨h0, by rw [h0]; rfl, rfl, ?_, rfl, rfl, rfl, rfl, rfl⟩
  cases hasType <;> rfl

/-- C5: the two-step hour derivation (format the parsed time to text, then
reparse that text for the hour) is observably equivalent to direct
extraction: the hour is absent exactly when the parsed time is absent
(source text missing or unparseable), and when present it lies in [0, 23]
and equals the hour field of the parsed time. -/
theorem C5_two_step_hour (raw : Option (List Char)) :
    hourFromTime (raw.bind parse12) = (raw.bind parse12).map Tod.hour ∧
      (hourFromTime (raw.bind parse12) = none ↔ raw.bind parse12 = none) ∧
      (∀ h, hourFromTime (raw.bind parse12) = some h → h < 24) := by
  cases hr : raw.bind parse12 with
  | none =>
    refine ⟨rfl, by simp [hourFromTime_none], ?_⟩
    intro h hx
    rw [hourFromTime_none] at hx
    cases hx
  | some t =>
    obtain ⟨cs, -, hp⟩ : ∃ cs, raw = some cs ∧ parse12 cs = some t := by
      cases raw with
      | none => simp at hr
      | some cs => exact ⟨cs, rfl, by simpa using hr⟩
    obtain ⟨hh, hm⟩ := parse12_valid cs t hp
    have he := hourFromTime_some t hh hm
    refine ⟨by rw [he]; rfl, by simp [he], ?_⟩
    intro h hx
    rw [he] at hx
    injection hx with hx2
    omega

/-- Witness for C5 at the concrete time text `2:15 PM`. -/
theorem C5_two_step_hour_witness : (14 : Nat) < 24 :=
  (C5_two_step_hour (some ("2:15 PM".data))).2.2 14 (by decide)

/-- C3: the incident count always equals the number of rows and the
peak-hour metric yields the sentinel on an empty table and `H:00` on a
table with hours, but on a non-empty table whose every hour is absent the
peak-hour computation fails (modelled by `none`, the `KeyError` raised by
`filtered_df['Hour'].mode()[0]` on an empty mode result). -/
theorem C3_peak_hour_metrics :
    (∀ t : List CRow, total_incidents t = t.length) ∧
      peak_hour_str [] = some "N/A" ∧
      peak_hour_str [{ hour := some 7 }] = some "7:00" ∧
      peak_hour_str [rowNoHour] = none :=
  ⟨fun _ => rfl, rfl, by decide, by decide⟩

/-- C4 counterexample: a readable CSV file that lacks the `Time` column
makes the whole operation fail (the uncaught `KeyError` raised by
`df['Time']` on line 65, modelled as `missingColumn`), although the file
parsed — so ingestion does not succeed whenever at least one file parses. -/
theorem C4_counterexample :
    load_and_clean_data [some fileNoTime] = .error .missingColumn := rfl

/-- C4 (amended): an empty file list fails with `noCsvFiles`; unreadable
files are skipped (each counted as one warning) and if none parses the
operation fails with `noValidData`; when at least one file parses and the
concatenated frame has the `Date`, `Time`, `Latitude` and `Longitude`
columns, the operation succeeds with the warning count and the cleaned
concatenation of exactly the files that parsed. -/
theorem C4_ingestion_flow (files : List (Option RawFile)) :
    (files = [] → load_and_clean_data files = .error .noCsvFiles) ∧
      (files ≠ [] → files.filterMap id = [] →
        load_and_clean_data files = .error .noValidData) ∧
      (files ≠ [] → files.filterMap id ≠ [] →
        ((concatCols (files.filterMap id)).date &&
            (concatCols (files.filterMap id)).time &&
            (concatCols (files.filterMap id)).lat &&
            (concatCols (files.filterMap id)).lon) = true →
        load_and_clean_data files =
          .ok ((files.filter (fun f => f.isNone)).length,
            cleanTable (concatCols (files.filterMap id))
              (concatRows (files.filterMap id)))) := by
  refine ⟨?_, ?_, ?_⟩
  · intro h
    subst h
    rfl
  · intro h1 h2
    simp only [load_and_clean_data]
    rw [if_neg (by simpa [List.isEmpty_iff] using h1),
      if_pos (by simpa [List.isEmpty_iff] using h2)]
  · intro h1 h2 h3
    simp only [load_and_clean_data]
    rw [if_neg (by simpa [List.isEmpty_iff] using h1),
      if_neg (by simpa [List.isEmpty_iff] using h2), if_pos h3]

/-- Witness for C4: one readable file plus one unreadable file succeed with
one warning and the cleaned content of the readable file. -/
theorem C4_ingestion_flow_witness :
    load_and_clean_data [some fileFull, none] =
      .ok (1, cleanTable (concatCols [fileFull]) (concatRows [fileFull])) :=
  (C4_ingestion_flow [some fileFull, none]).2.2 (by simp) (by simp)
    (by decide)

/-- C1 counterexample: when no parsed file has a `City` column, ingestion
succeeds but the records' city field is absent (not the string
`"Unknown"`), contradicting the claim that city is always a non-null
string. -/
theorem C1_counterexample :
    load_and_clean_data [some fileNoCity] = .ok (0, [rowNoCity]) ∧
      rowNoCity.city = none :=
  ⟨rfl, rfl⟩

/-- C1 (amended): every record of the unified table has non-null date,
latitude, longitude and month bucket; the city (resp. involved) field is a
non-null string whenever some parsed file has the `City` (resp.
`Involved`) column, and is absent from every record otherwise; a missing
source value in a present column defaults to `"Unknown"`. -/
theorem C1_cleaned_record_invariant (files : List (Option RawFile)) (w : Nat)
    (tbl : List CRow) (hok : load_and_clean_data files = .ok (w, tbl))
    (r : CRow) (hr : r ∈ tbl) :
    r.date.isSome = true ∧ r.lat.isSome = true ∧ r.lon.isSome = true ∧
      r.monthYear.isSome = true ∧
      ((concatCols (files.filterMap id)).city = true → r.city.isSome = true) ∧
      ((concatCols (files.filterMap id)).city = false → r.city = none) ∧
      ((concatCols (files.filterMap id)).involved = true →
        r.involved.isSome = true) ∧
      ((concatCols (files.filterMap id)).involved = false →
        r.involved = none) ∧
      (∀ c : Cols, ∀ raw : RawRow, raw.city = none →
        (cleanRow c raw).city = if c.city then some "Unknown" else none) ∧
      (∀ c : Cols, ∀ raw : RawRow, raw.involved = none →
        (cleanRow c raw).involved =
          if c.involved then some "Unknown" else none) := by
  simp only [load_and_clean_data] at hok
  split at hok
  · cases hok
  · split at hok
    · cases hok
    · split at hok
      · rw [Except.ok.injEq, Prod.mk.injEq] at hok
        obtain ⟨-, htbl⟩ := hok
        subst htbl
        unfold cleanTable at hr
        obtain ⟨raw, hraw, heq⟩ := List.mem_map.mp hr
        obtain ⟨hraw2, hll⟩ := List.mem_filter.mp hraw
        obtain ⟨-, hd⟩ := List.mem_filter.mp hraw2
        rw [Bool.and_eq_true] at hll
        obtain ⟨hla, hlo⟩ := hll
        subst heq
        obtain ⟨d, hdd⟩ := Option.isSome_iff_exists.mp hd
        refine ⟨by simpa [cleanRow] using hd, by simpa [cleanRow] using hla,
          by simpa [cleanRow] using hlo, by simp [cleanRow, hdd], ?_, ?_, ?_, ?_,
          ?_, ?_⟩
        · intro hc; simp [cleanRow, hc]
        · intro hc; simp [cleanRow, hc]
        · intro hc; simp [cleanRow, hc]
        · intro hc; simp [cleanRow, hc]
        · intro c raw2 hc
          have hu : normCity none = "Unknown" := by decide
          simp [cleanRow, hc, hu]
        · intro c raw2 hc
          simp [cleanRow, hc]
      · cases hok

/-- Witness for C1 on a concrete successful ingestion. -/
theorem C1_cleaned_record_invariant_witness :
    rowNoCity.date.isSome = true :=
  (C1_cleaned_record_invariant [some fileNoCity] 0 [rowNoCity] rfl rowNoCity
    (by simp)).1

/-- C9: the most-frequent-value selection of the top metrics (city,
incident type, hour) is deterministic: recomputing on the identical table
gives the identical value, and the selected value is pinned uniquely — it
attains the maximal count among the column's non-null values and is the
least value doing so (pandas `mode()` sorts its result, `[0]` takes the
head). -/
theorem C9_metrics_deterministic (t : List CRow) (hne : t.isEmpty = false)
    (v : String) (hv : top_city t = some v)
    (u : String) (hu : top_incident true t = some u)
    (h : Nat) (hh : peak_hour_val t = some (Sum.inl h)) :
    (top_city t = top_city t ∧ top_incident true t = top_incident true t ∧
      peak_hour_val t = peak_hour_val t) ∧
      (v ∈ t.filterMap (fun r => r.city) ∧
        (∀ w ∈ t.filterMap (fun r => r.city),
          (t.filterMap (fun r => r.city)).count w ≤
            (t.filterMap (fun r => r.city)).count v) ∧
        (∀ w ∈ t.filterMap (fun r => r.city),
          (t.filterMap (fun r => r.city)).count w =
              (t.filterMap (fun r => r.city)).count v → strLeB v w = true)) ∧
      (u ∈ t.filterMap (fun r => r.itype) ∧
        (∀ w ∈ t.filterMap (fun r => r.itype),
          (t.filterMap (fun r => r.itype)).count w ≤
            (t.filterMap (fun r => r.itype)).count u) ∧
        (∀ w ∈ t.filterMap (fun r => r.itype),
          (t.filterMap (fun r => r.itype)).count w =
              (t.filterMap (fun r => r.itype)).count u →
            strLeB u w = true)) ∧
      (h ∈ t.filterMap (fun r => r.hour) ∧
        (∀ w ∈ t.filterMap (fun r => r.hour),
          (t.filterMap (fun r => r.hour)).count w ≤
            (t.filterMap (fun r => r.hour)).count h) ∧
        (∀ w ∈ t.filterMap (fun r => r.hour),
          (t.filterMap (fun r => r.hour)).count w =
              (t.filterMap (fun r => r.hour)).count h → h ≤ w)) := by
  refine ⟨⟨rfl, rfl, rfl⟩, ?_, ?_, ?_⟩
  · unfold top_city at hv
    rw [hne] at hv
    rw [if_neg (by simp)] at hv
    have := seriesMode_head_spec strLeB strLeB_total strLeB_trans
      (t.map (fun r => r.city)) v hv
    rwa [filterMap_id_map] at this
  · unfold top_incident at hu
    rw [hne] at hu
    rw [if_pos (by simp)] at hu
    have := seriesMode_head_spec strLeB strLeB_total strLeB_trans
      (t.map (fun r => r.itype)) u hu
    rwa [filterMap_id_map] at this
  · unfold peak_hour_val at hh
    rw [hne] at hh
    rw [if_neg (by simp)] at hh
    obtain ⟨h0, hh0, hinj⟩ := Option.map_eq_some'.mp hh
    have hh0' : h0 = h := by
      injection hinj
    subst hh0'
    have := seriesMode_head_spec _ natLeB_total natLeB_trans
      (t.map (fun r => r.hour)) h0 hh0
    rw [filterMap_id_map] at this
    exact ⟨this.1, this.2.1, fun w hw hc => by simpa using this.2.2 w hw hc⟩

/-- Witness for C9 on a concrete two-row table. -/
theorem C9_metrics_deterministic_witness :
    "Makati" ∈ [sampleRowMakati, sampleRowPasig].filterMap (fun r => r.city) :=
  ((C9_metrics_deterministic [sampleRowMakati, sampleRowPasig] (by decide)
    "Makati" (by decide) "COLLISION" (by decide) 8 (by decide)).2.1).1

/-- C6: the vehicle ranking counts the rows of each distinct `involved`
value, keeps at most ten entries, orders them by count descending with
ties in first-encountered order (the tie class is a sublist of the
first-occurrence sequence), every listed count is correct, and any value
left out when the list is full has a count no larger than every listed
one; the ranking of the empty table is empty. -/
theorem C6_vehicle_ranking (t : List CRow) :
    (t = [] → veh_counts t = []) ∧
      (veh_counts t).length ≤ 10 ∧
      (∀ p ∈ veh_counts t,
        p.2 = (t.filter (fun r => r.involved = some p.1)).length ∧
          ∃ r ∈ t, r.involved = some p.1) ∧
      (veh_counts t).Pairwise (fun a b => b.2 ≤ a.2) ∧
      (∀ c, (((veh_counts t).filter (fun p => p.2 = c)).map Prod.fst).Sublist
        (firstUniques (t.filterMap (fun r => r.involved)))) ∧
      (∀ v, (∃ r ∈ t, r.involved = some v) →
        v ∉ (veh_counts t).map Prod.fst →
          (veh_counts t).length = 10 ∧
            ∀ p ∈ veh_counts t,
              (t.filter (fun r => r.involved = some v)).length ≤ p.2) := by
  refine ⟨fun h => by subst h; rfl, ?_, ?_, ?_, ?_, ?_⟩ <;>
    [skip; skip; skip; skip; skip] <;> try skip
  all_goals
    have hvc : veh_counts t =
        (sortCountDesc ((firstUniques (t.filterMap (fun r => r.involved))).map
          (fun v => (v, (t.filterMap (fun r => r.involved)).count v)))).take 10 := by
      unfold veh_counts value_counts
      rw [filterMap_id_map]
  · -- length bound
    rw [hvc]
    exact List.length_take_le _ _
  · -- counts correct and values occur
    intro p hp
    rw [hvc] at hp
    have hps := List.take_subset _ _ hp
    have hpp := (sortCountDesc_perm _).mem_iff.mp hps
    obtain ⟨v, hv, heq⟩ := List.mem_map.mp hpp
    subst heq
    refine ⟨count_filterMap_involved t v, ?_⟩
    have hvxs := (mem_firstUniques v _).mp hv
    obtain ⟨r, hr, hrv⟩ := List.mem_filterMap.mp hvxs
    exact ⟨r, hr, hrv⟩
  · -- descending counts
    rw [hvc]
    exact List.Pairwise.sublist (List.take_sublist _ _) (sortCountDesc_sorted _)
  · -- tie classes keep first-encountered order
    intro c
    rw [hvc]
    have h1 := List.Sublist.filter (fun p => p.2 = c)
      (List.take_sublist 10 (sortCountDesc ((firstUniques
        (t.filterMap (fun r => r.involved))).map
          (fun v => (v, (t.filterMap (fun r => r.involved)).count v)))))
    have h3 := h1.map Prod.fst
    rw [filter_sortCountDesc] at h3
    refine h3.trans ?_
    rw [List.filter_map, List.map_map,
      show (Prod.fst ∘ fun v =>
          (v, (t.filterMap (fun r => r.involved)).count v)) =
        (fun v : String => v) from rfl,
      List.map_id']
    exact List.filter_sublist _
  · -- omitted values have no larger count
    rintro v ⟨r, hr, hrv⟩ hnot
    rw [hvc] at hnot
    have hvxs : v ∈ t.filterMap (fun r => r.involved) :=
      List.mem_filterMap.mpr ⟨r, hr, hrv⟩
    have hvu := (mem_firstUniques v _).mpr hvxs
    have hpv : (v, (t.filterMap (fun r => r.involved)).count v) ∈
        (firstUniques (t.filterMap (fun r => r.involved))).map
          (fun v => (v, (t.filterMap (fun r => r.involved)).count v)) :=
      List.mem_map_of_mem _ hvu
    have hps := (sortCountDesc_perm _).mem_iff.mpr hpv
    have hsplit := List.take_append_drop 10 (sortCountDesc ((firstUniques
      (t.filterMap (fun r => r.involved))).map
        (fun v => (v, (t.filterMap (fun r => r.involved)).count v))))
    have hdropmem : (v, (t.filterMap (fun r => r.involved)).count v) ∈
        (sortCountDesc ((firstUniques (t.filterMap (fun r => r.involved))).map
          (fun v => (v, (t.filterMap (fun r => r.involved)).count v)))).drop 10 := by
      rcases List.mem_append.mp (by rw [hsplit]; exact hps) with h | h
      · exact absurd (List.mem_map_of_mem Prod.fst h) hnot
      · exact h
    constructor
    · rw [hvc, List.length_take]
      have hlen : 10 < (sortCountDesc ((firstUniques
          (t.filterMap (fun r => r.involved))).map
            (fun v => (v, (t.filterMap (fun r => r.involved)).count v)))).length := by
        by_contra hle
        push_neg at hle
        rw [List.drop_eq_nil_of_le hle] at hdropmem
        cases hdropmem
      omega
    · intro p hp
      rw [hvc] at hp
      have hpw := (List.pairwise_append.mp
        (by rw [hsplit]; exact sortCountDesc_sorted _)).2.2 p hp _ hdropmem
      rw [← count_filterMap_involved t v]
      exact hpw

/-- Witness for C6 on a concrete two-row table: the listed count for
`CAR` is the number of its rows and the value occurs in the table. -/
theorem C6_vehicle_ranking_witness :
    (("CAR", 1) : String × Nat).2 =
        ([sampleRowMakati, sampleRowPasig].filter
          (fun r => r.involved = some ("CAR", 1).1)).length ∧
      ∃ r ∈ [sampleRowMakati, sampleRowPasig], r.involved = some ("CAR", 1).1 :=
  (C6_vehicle_ranking [sampleRowMakati, sampleRowPasig]).2.2.1 ("CAR", 1)
    (by decide)

theorem perm_count_eq_beq {β : Type} [BEq β] {l1 l2 : List β}
    (h : l1.Perm l2) (k : β) : l1.count k = l2.count k :=
  h.countP_eq _

theorem count_filterMap_eq {β : Type} [BEq β] [LawfulBEq β] [DecidableEq β]
    (f : CRow → Option β) (t : List CRow) (v : β) :
    (t.filterMap f).count v = (t.filter (fun r => f r = some v)).length := by
  induction t with
  | nil => rfl
  | cons r t ih =>
    cases hr : f r with
    | none =>
      rw [List.filterMap_cons_none hr, List.filter_cons_of_neg (by simp [hr]), ih]
    | some s =>
      rw [List.filterMap_cons_some hr, List.count_cons, List.filter_cons]
      by_cases hsv : s = v
      · subst hsv
        simp [hr, ih]
      · simp [hr, hsv, ih]

/-- C7: the monthly trend counts the rows of each month bucket, its bucket
sequence is strictly increasing in string order and hence in chronological
order of the (year, month) any valid date writes into the bucket, and two
tables that are permutations of each other give identical trend series. -/
theorem C7_trend_monotone (t t' : List CRow) (hperm : t.Perm t') :
    (∀ p ∈ trend_data t,
      p.2 = (t.filter (fun r => r.monthYear = some p.1)).length ∧
        ∃ r ∈ t, r.monthYear = some p.1) ∧
      (trend_data t).Pairwise (fun a b =>
        lexLt a.1 b.1 = true ∧
          ∀ d1 d2, ValidDate d1 → ValidDate d2 →
            a.1 = monthYearOf d1 → b.1 = monthYearOf d2 →
              (d1.year < d2.year ∨
                (d1.year = d2.year ∧ d1.month < d2.month))) ∧
      trend_data t = trend_data t' := by
  have hdef : ∀ s : List CRow, trend_data s =
      (List.insertionSort LexLe
        (firstUniques (s.filterMap (fun r => r.monthYear)))).map
          (fun k => (k, (s.filterMap (fun r => r.monthYear)).count k)) :=
    fun s => rfl
  refine ⟨?_, ?_, ?_⟩
  · intro p hp
    rw [hdef] at hp
    obtain ⟨k, hk, heq⟩ := List.mem_map.mp hp
    subst heq
    dsimp only
    have hk2 : k ∈ firstUniques (t.filterMap (fun r => r.monthYear)) :=
      (List.perm_insertionSort LexLe _).mem_iff.mp hk
    have hk3 := (mem_firstUniques k _).mp hk2
    obtain ⟨r, hr, hrk⟩ := List.mem_filterMap.mp hk3
    exact ⟨count_filterMap_eq _ t k, r, hr, hrk⟩
  · rw [hdef, List.pairwise_map]
    have hsorted : List.Sorted LexLe (List.insertionSort LexLe
        (firstUniques (t.filterMap (fun r => r.monthYear)))) :=
      List.sorted_insertionSort _ _
    have hnodup : (List.insertionSort LexLe
        (firstUniques (t.filterMap (fun r => r.monthYear)))).Nodup :=
      (List.perm_insertionSort LexLe _).nodup_iff.mpr (nodup_firstUniques _)
    have hcomb := List.Pairwise.and hsorted hnodup
    refine hcomb.imp ?_
    rintro a b ⟨hle, hne⟩
    have hlt := lexLt_of_le_of_ne hle hne
    refine ⟨hlt, fun d1 d2 hv1 hv2 he1 he2 => ?_⟩
    have he1b : a = monthYearOf d1 := he1
    have he2b : b = monthYearOf d2 := he2
    rw [he1b, he2b] at hlt
    exact (monthYear_lt_iff d1 d2 hv1 hv2).mp hlt
  · have hks : (t.filterMap (fun r => r.monthYear)).Perm
        (t'.filterMap (fun r => r.monthYear)) := hperm.filterMap _
    have hfin : (firstUniques (t.filterMap (fun r => r.monthYear))).toFinset =
        (firstUniques (t'.filterMap (fun r => r.monthYear))).toFinset := by
      ext x
      simp only [List.mem_toFinset, mem_firstUniques]
      exact hks.mem_iff
    have hp2 := List.perm_of_nodup_nodup_toFinset_eq (nodup_firstUniques _)
      (nodup_firstUniques _) hfin
    have hsl : List.insertionSort LexLe
        (firstUniques (t.filterMap (fun r => r.monthYear))) =
        List.insertionSort LexLe
          (firstUniques (t'.filterMap (fun r => r.monthYear))) :=
      List.eq_of_perm_of_sorted
        ((List.perm_insertionSort _ _).trans
          (hp2.trans (List.perm_insertionSort _ _).symm))
        (List.sorted_insertionSort _ _) (List.sorted_insertionSort _ _)
    rw [hdef t, hdef t', hsl]
    exact List.map_congr_left fun k _ => by
      rw [perm_count_eq_beq hks]

/-- Witness for C7: swapping the two rows of a concrete table leaves the
trend series unchanged. -/
theorem C7_trend_monotone_witness :
    trend_data [sampleRowPasig, sampleRowMakati] =
      trend_data [sampleRowMakati, sampleRowPasig] :=
  (C7_trend_monotone [sampleRowPasig, sampleRowMakati]
    [sampleRowMakati, sampleRowPasig]
    (List.Perm.swap sampleRowMakati sampleRowPasig [])).2.2

end Traffic
